import Mathlib

/-!
Verification development for the maven-skills-map evidence-validation and
weight-pruning core (scripts/validate_tools.py, scripts/assign_a5.py,
scripts/cleanup_skills.py).

Texts are modelled as `List Char`.  Python regular-expression constructs are
embedded by hand for exactly the fixed patterns the scripts use; the ASCII
fragment of the relevant character classes is modelled (all pattern literals
and all inputs mentioned by the claims are ASCII).
-/

namespace SkillsMap

/-- Convert a Lean string literal to the `List Char` representation. -/
def str (s : String) : List Char := s.data

/-- Python `str.lower()`, modelled characterwise (ASCII-faithful). -/
def lowerStr (s : List Char) : List Char := s.map Char.toLower

/-- Python regex `\s` (ASCII fragment): space, tab, newline, carriage return,
vertical tab, form feed. -/
def isPyWhitespace (c : Char) : Bool :=
  c = ' ' || c = '\t' || c = '\n' || c = '\r' || c = '\x0b' || c = '\x0c'

/-- Python regex `\w` (ASCII fragment): letters, digits, underscore. -/
def isWordChar (c : Char) : Bool := c.isAlphanum || c = '_'

/-- Python slice `t[s:e]` (non-negative indices; clamps like Python). -/
def sliceList (t : List Char) (s e : Nat) : List Char := (t.take e).drop s

/-- The pattern `pat` occurs in `text` starting at index `i`
(Python `text.startswith(pat, i)` / a regex literal match at `i`). -/
def listMatchAt (pat text : List Char) (i : Nat) : Bool :=
  pat.isPrefixOf (text.drop i)

/-- Python substring test `pat in text`. -/
def isSubstr (pat text : List Char) : Bool :=
  (List.range (text.length + 1)).any (fun i => pat.isPrefixOf (text.drop i))

/-- Step function for `re.finditer` of a literal pattern: scans left to right,
recording non-overlapping match start positions; after a match at `i` the next
`anchor.length - 1` positions are skipped (regex scanning resumes at the match
end). `i` is the absolute index of the head of `t`; `skip` is the number of
positions still to skip. -/
def findOccsGo (anchor : List Char) : List Char → Nat → Nat → List Nat
  | [], _, _ => []
  | c :: rest, i, skip =>
    if 0 < skip then findOccsGo anchor rest (i + 1) (skip - 1)
    else if anchor.isPrefixOf (c :: rest) then
      i :: findOccsGo anchor rest (i + 1) (anchor.length - 1)
    else findOccsGo anchor rest (i + 1) 0

/-- Embedding of `re.finditer(re.escape(anchor), text)`: the list of the start positions of
the non-overlapping occurrences of the literal `anchor`, left to right.  (An
empty pattern matches at every position, as in Python.) -/
def findOccs (anchor text : List Char) : List Nat :=
  match anchor with
  | [] => List.range (text.length + 1)
  | _ :: _ => findOccsGo anchor text 0 0

/-- Embedding of `validate_tools._has_nearby`: some finditer occurrence of `anchor` has some
member of `contextWords` (case-insensitively) inside the slice reaching
`window` characters before the occurrence start and `window` characters after
the occurrence end. -/
def hasNearby (text anchor : List Char) (contextWords : List (List Char))
    (window : Nat) : Bool :=
  (findOccs anchor text).any (fun s =>
    contextWords.any (fun w =>
      isSubstr (lowerStr w)
        (lowerStr (sliceList text (s - window)
          (min text.length (s + anchor.length + window))))))

/-! ### Word-boundary regex search (`\bPat\b`)

All patterns the scripts anchor with `\b` start and end with word characters,
so the boundary reduces to: the neighbouring character (when present) is not a
word character. -/

/-- Boundary `\b` just before index `i` for a pattern starting with a word
character: start of text, or the previous character is not a word character. -/
def wbBefore (text : List Char) (i : Nat) : Bool :=
  if i = 0 then true else !(isWordChar (text.getD (i - 1) ' '))

/-- Boundary `\b` just after index `j` (exclusive) for a pattern ending with a
word character: end of text, or the character at `j` is not a word character. -/
def wbAfter (text : List Char) (j : Nat) : Bool :=
  if text.length ≤ j then true else !(isWordChar (text.getD j ' '))

/-- Embedding of `re.search(r'\bPat\b', text)` for a literal `pat` whose first and last
characters are word characters. -/
def wbSearch (pat text : List Char) : Bool :=
  (List.range (text.length + 1)).any (fun i =>
    listMatchAt pat text i && wbBefore text i && wbAfter text (i + pat.length))

/-- Case-insensitive `re.search(r'\bPat\b', text, re.I)`; `pat` must be given
lowercased.  (Case does not affect word-character status.) -/
def wbSearchCI (pat text : List Char) : Bool := wbSearch pat (lowerStr text)

/-! ### Fixed regex patterns built from literals and `\s*` / `\s+`

The scripts' multi-word patterns are alternations of word literals joined by
whitespace classes.  Because every `\s*`/`\s+` is followed by a
non-whitespace literal character, greedy matching is equivalent to consuming
the maximal whitespace run, which is what the interpreter below does. -/

inductive RePat where
  /-- a literal fragment, matched case-insensitively (stored lowercased) -/
  | lit (w : List Char) : RePat
  /-- `\s*` -/
  | ws0 : RePat
  /-- `\s+` -/
  | ws1 : RePat

/-- Match a sequence of `RePat` tokens at the head of `t`; returns the number
of characters consumed (`re.match`, case-insensitive literals). -/
def patsMatchLen : List RePat → List Char → Option Nat
  | [], _ => some 0
  | RePat.lit w :: ps, t =>
    if lowerStr (t.take w.length) = w then
      (patsMatchLen ps (t.drop w.length)).map (· + w.length)
    else none
  | RePat.ws1 :: ps, t =>
    let k := (t.takeWhile isPyWhitespace).length
    if k = 0 then none else (patsMatchLen ps (t.drop k)).map (· + k)
  | RePat.ws0 :: ps, t =>
    let k := (t.takeWhile isPyWhitespace).length
    (patsMatchLen ps (t.drop k)).map (· + k)

/-- First alternative of `alts` matching at the head of `t`, with its length
(regex alternation tries alternatives left to right). -/
def tryAltsAt (alts : List (List RePat)) (t : List Char) : Option Nat :=
  alts.findSome? (fun ps => patsMatchLen ps t)

/-- Search (`re.search`) of an alternation of `RePat` sequences. -/
def altsSearch (alts : List (List RePat)) (text : List Char) : Bool :=
  (List.range (text.length + 1)).any (fun i =>
    (tryAltsAt alts (text.drop i)).isSome)

/-- Scanner for `re.sub(alternation, '', text)`: walks left to right; at each
position deletes the leftmost match (first alternative, greedy whitespace),
resuming after the match, and otherwise keeps the character.  `fuel` is an
upper bound on the number of steps; each step consumes at least one
character, so `text.length + 1` is always enough. -/
def removeAltsGo (alts : List (List RePat)) : Nat → List Char → List Char
  | 0, _ => []
  | _, [] => []
  | fuel + 1, c :: rest =>
    match tryAltsAt alts (c :: rest) with
    | some n => removeAltsGo alts fuel (rest.drop (n - 1))
    | none => c :: removeAltsGo alts fuel rest

/-- Removal `re.sub(alternation, '', text)` (case-insensitive literals). -/
def removeAlts (alts : List (List RePat)) (text : List Char) : List Char :=
  removeAltsGo alts (text.length + 1) text

/-- Scanner for `re.sub(r'\bword\b', '', text, flags=re.I)` for a single
all-word-character `word` (given lowercased).  `prevWord` records whether the
character preceding the scan position in the original text is a word
character (boundaries are judged in the original text; after a removal the
preceding character is the last matched character, a word character). -/
def removeWbWordGo (w : List Char) : Nat → Bool → List Char → List Char
  | 0, _, _ => []
  | _, _, [] => []
  | fuel + 1, prevWord, c :: rest =>
    if !prevWord && lowerStr ((c :: rest).take w.length) = w
        && wbAfter (c :: rest) w.length then
      removeWbWordGo w fuel true (rest.drop (w.length - 1))
    else
      c :: removeWbWordGo w fuel (isWordChar c) rest

/-- Removal `re.sub(r'\bword\b', '', text, flags=re.I)` for an all-word-character
`word` given lowercased. -/
def removeWbWordCI (w text : List Char) : List Char :=
  removeWbWordGo w (text.length + 1) false text

/-! ### validate_tools.py: tool table and `tool_found_in` -/

/-- Table `TIER1_TOOLS`. -/
def TIER1_TOOLS : List (List Char) :=
  [str "ChatGPT", str "OpenAI API", str "Claude Code", str "Lovable",
   str "Figma", str "LangChain", str "LangGraph", str "n8n", str "Replit",
   str "Zapier", str "Custom GPTs", str "NotebookLM", str "DALL-E",
   str "Hugging Face", str "Pinecone", str "Google Colab", str "Notion AI",
   str "Stable Diffusion", str "Midjourney", str "GPT-4"]

/-- The tool names given a bespoke Tier-2 branch in `tool_found_in`. -/
def TIER2_TOOLS : List (List Char) :=
  [str "Claude", str "Cursor", str "Bolt", str "v0", str "Make",
   str "Gemini", str "Copilot", str "Perplexity", str "Windsurf",
   str "Devin", str "Relay"]

/-- The `Claude` branch: true if `"claude code"` is a (case-insensitive)
substring, else true iff `\bClaude\b` occurs and an AI context word is within
150 characters of some occurrence. -/
def claudeBranch (text : List Char) : Bool :=
  if isSubstr (str "claude code") (lowerStr text) then true
  else if wbSearch (str "Claude") text then
    hasNearby text (str "Claude")
      [str "Anthropic", str "Sonnet", str "Opus", str "Haiku", str "API",
       str "model", str "AI", str "LLM", str "chatbot"] 150
  else false

/-- The excluded-phrase alternation
`(?:cursor\s+position|text\s+cursor|mouse\s+cursor)` (re.I). -/
def cursorPhrases : List (List RePat) :=
  [[RePat.lit (str "cursor"), RePat.ws1, RePat.lit (str "position")],
   [RePat.lit (str "text"), RePat.ws1, RePat.lit (str "cursor")],
   [RePat.lit (str "mouse"), RePat.ws1, RePat.lit (str "cursor")]]

/-- The `Cursor` branch: require a capitalized standalone `\bCursor\b`; if a
UI-cursor phrase occurs, strip all such phrases and require a surviving
standalone capitalized occurrence. -/
def cursorBranch (text : List Char) : Bool :=
  if !(wbSearch (str "Cursor") text) then false
  else if altsSearch cursorPhrases text then
    wbSearch (str "Cursor") (removeAlts cursorPhrases text)
  else true

/-- The excluded-phrase alternation `(?:bolt\s+on|nuts\s+and\s+bolts)` (re.I). -/
def boltPhrases : List (List RePat) :=
  [[RePat.lit (str "bolt"), RePat.ws1, RePat.lit (str "on")],
   [RePat.lit (str "nuts"), RePat.ws1, RePat.lit (str "and"), RePat.ws1,
    RePat.lit (str "bolts")]]

/-- The `Bolt` branch (same shape as the `Cursor` branch). -/
def boltBranch (text : List Char) : Bool :=
  if !(wbSearch (str "Bolt") text) then false
  else if altsSearch boltPhrases text then
    wbSearch (str "Bolt") (removeAlts boltPhrases text)
  else true

/-- The after-context class of the `v0` outer pattern,
`(?:\s|[,;.!?)]|$)` at index `j`.  (`$` before a trailing newline is subsumed
by `\s`.) -/
def v0AfterOk (text : List Char) (j : Nat) : Bool :=
  if text.length ≤ j then true
  else isPyWhitespace (text.getD j ' ')
    || [',', ';', '.', '!', '?', ')'].contains (text.getD j ' ')

/-- Embedding of `re.search(r'(?:^|\s)v0(?:\s|[,;.!?)]|$)', text)`. -/
def v0Outer (text : List Char) : Bool :=
  (List.range (text.length + 1)).any (fun i =>
    (if i = 0 then true else isPyWhitespace (text.getD (i - 1) ' '))
      && listMatchAt (str "v0") text i && v0AfterOk text (i + 2))

/-- Embedding of `re.match(r'\.\d', text[j:j+2])`: a dot-digit version suffix at `j`. -/
def dotDigitAt (text : List Char) (j : Nat) : Bool :=
  match text.drop j with
  | '.' :: d :: _ => d.isDigit
  | _ => false

/-- The `v0` branch: the outer boundary pattern must be found, and then some
finditer occurrence of `v0` must not be immediately followed by a dot-digit
version suffix. -/
def v0Branch (text : List Char) : Bool :=
  if v0Outer text then
    (findOccs (str "v0") text).any (fun p => !(dotDigitAt text (p + 2)))
  else false

/-- The explicit `Make` patterns
`Make\.com`, `Make\s+automation`, `Make\s+scenario`, `Make\s+integration`
(all re.I). -/
def makePhrases : List (List RePat) :=
  [[RePat.lit (str "make.com")],
   [RePat.lit (str "make"), RePat.ws1, RePat.lit (str "automation")],
   [RePat.lit (str "make"), RePat.ws1, RePat.lit (str "scenario")],
   [RePat.lit (str "make"), RePat.ws1, RePat.lit (str "integration")]]

/-- Embedding of the search
`re.search(r'(?:tools?|platform|software|app)\b.{0,30}\bMake\b', text, re.I)`:
a tool-list lead word with a word boundary after it, then up to 30 non-newline
characters, then a standalone `make`.  (`tools?\b` matches either `tool` or
`tools` with the boundary after whichever alternative survives backtracking.) -/
def makeContextSearch (text : List Char) : Bool :=
  (List.range (text.length + 1)).any (fun i =>
    [str "tool", str "tools", str "platform", str "software", str "app"].any
      (fun w =>
        lowerStr (sliceList text i (i + w.length)) = w
          && i + w.length ≤ text.length
          && wbAfter text (i + w.length)
          && (List.range 31).any (fun g =>
            (sliceList text (i + w.length) (i + w.length + g)).all
                (fun c => c ≠ '\n')
              && wbBefore text (i + w.length + g)
              && lowerStr (sliceList text (i + w.length + g)
                  (i + w.length + g + 4)) = str "make"
              && i + w.length + g + 4 ≤ text.length
              && wbAfter text (i + w.length + g + 4))))

/-- The `Make` branch. -/
def makeBranch (text : List Char) : Bool :=
  if altsSearch makePhrases text then true
  else if makeContextSearch text then true
  else false

/-- Embedding of `re.search(r'(?:GitHub|Microsoft)?\s*Copilot\b', text)`.  The optional
prefix and the `\s*` never constrain existence of a match, so the search
succeeds exactly when `Copilot` (exact case) occurs with a word boundary
after it. -/
def copilotSearch (text : List Char) : Bool :=
  (List.range (text.length + 1)).any (fun i =>
    listMatchAt (str "Copilot") text i && wbAfter text (i + 7))

/-- The `Windsurf` branch: standalone `\bWindsurf\b`, with `\bwindsurfing\b`
(re.I) occurrences stripped first when present. -/
def windsurfBranch (text : List Char) : Bool :=
  if !(wbSearch (str "Windsurf") text) then false
  else if wbSearchCI (str "windsurfing") text then
    wbSearch (str "Windsurf") (removeWbWordCI (str "windsurfing") text)
  else true

/-- The `Devin` branch: standalone `\bDevin\b` plus a context word within 150
characters. -/
def devinBranch (text : List Char) : Bool :=
  if !(wbSearch (str "Devin") text) then false
  else
    hasNearby text (str "Devin")
      [str "AI", str "agent", str "coding", str "engineer", str "tool",
       str "software"] 150

/-- The `Relay` branch: `Relay.app` is an unconditional match; otherwise a
standalone `\bRelay\b` plus a context word within 150 characters. -/
def relayBranch (text : List Char) : Bool :=
  if isSubstr (str "Relay.app") text then true
  else if wbSearch (str "Relay") text then
    hasNearby text (str "Relay") [str "app", str "automation", str "workflow"]
      150
  else false

/-- Embedding of `validate_tools.tool_found_in`. -/
def tool_found_in (tool text : List Char) : Bool :=
  if text = [] then false
  else if tool ∈ TIER1_TOOLS then isSubstr (lowerStr tool) (lowerStr text)
  else if tool = str "Claude" then claudeBranch text
  else if tool = str "Cursor" then cursorBranch text
  else if tool = str "Bolt" then boltBranch text
  else if tool = str "v0" then v0Branch text
  else if tool = str "Make" then makeBranch text
  else if tool = str "Gemini" then wbSearch (str "Gemini") text
  else if tool = str "Copilot" then copilotSearch text
  else if tool = str "Perplexity" then wbSearch (str "Perplexity") text
  else if tool = str "Windsurf" then windsurfBranch text
  else if tool = str "Devin" then devinBranch text
  else if tool = str "Relay" then relayBranch text
  else isSubstr (lowerStr tool) (lowerStr text)

/-! ### Data model

Weights are Python floats drawn from `{0.3, 0.8}` (plus `0` for a zeroed
`tool_weight`); the scripts only compare them for equality and with `>= 0.8`.
They are represented exactly, in tenths, as naturals: `0.3 ↦ 3`, `0.8 ↦ 8`,
`0 ↦ 0`. -/

/-- One entry of a course's `skills` list: a `{"code": ..., "weight": ...}`
object.  The weight is in tenths. -/
structure Skill where
  code : List Char
  weight : Nat
  deriving DecidableEq

/-- One record of `course_skill_mappings.json` (the fields the three engines
read or write).  `tool_weight` is in tenths; a record without a
`tool_weight`/`tools` key is modelled by the defaults `0` / `[]` the scripts
substitute. -/
structure Mapping where
  course_id : List Char
  course_name : List Char
  skills : List Skill
  tools : List (List Char)
  tool_weight : Nat
  deriving DecidableEq

/-- One record of `course_profiles.json` (the fields read by the engines). -/
structure Profile where
  course_id : List Char
  topics : List Char
  syllabus_text : List Char
  deriving DecidableEq

/-- Lookup `{p["course_id"]: p for p in profiles}` followed by `.get(cid, {})`:
the last profile with the given id wins; a missing id gives the empty
default. -/
def profileFor (profiles : List Profile) (cid : List Char) : Option Profile :=
  profiles.foldl (fun acc p => if p.course_id = cid then some p else acc) none

/-- Python `"...".split(",")`. -/
def splitComma (s : List Char) : List (List Char) :=
  s.foldr
    (fun c acc =>
      if c = ',' then [] :: acc
      else
        match acc with
        | [] => [[c]]
        | g :: gs => (c :: g) :: gs)
    [[]]

/-- Python `str.strip()` (ASCII whitespace). -/
def stripWs (s : List Char) : List Char :=
  ((s.dropWhile isPyWhitespace).reverse.dropWhile isPyWhitespace).reverse

/-- Embedding of `get_topics`: split the profile's `topics` string on commas, strip each
part, and drop the empty parts (both assign_a5.py and cleanup_skills.py). -/
def getTopics (topicsStr : List Char) : List (List Char) :=
  ((splitComma topicsStr).map stripWs).filter (fun t => t ≠ [])

/-- The topics string of the profile joined to a course id (empty when the
course id has no profile). -/
def topicsFor (profiles : List Profile) (cid : List Char) : List Char :=
  match profileFor profiles cid with
  | some p => p.topics
  | none => []

/-- The syllabus text of the profile joined to a course id (empty when the
course id has no profile, or when the profile lacks the field). -/
def syllabusFor (profiles : List Profile) (cid : List Char) : List Char :=
  match profileFor profiles cid with
  | some p => p.syllabus_text
  | none => []

/-! ### assign_a5.py -/

/-- Table `VIBE_TOOLS`. -/
def VIBE_TOOLS : List (List Char) :=
  [str "Cursor", str "Lovable", str "Bolt", str "v0", str "Replit",
   str "Windsurf", str "Devin"]

/-- Table `NAME_PATTERNS`, compiled as one case-insensitive alternation (`NAME_RE`).
`prototype`, `prototyping`, `vibe\s*cod`, `builder\s+bootcamp`,
`build\s+and\s+ship`, `build\s*&\s*ship`. -/
def NAME_PATTERNS : List (List RePat) :=
  [[RePat.lit (str "prototype")],
   [RePat.lit (str "prototyping")],
   [RePat.lit (str "vibe"), RePat.ws0, RePat.lit (str "cod")],
   [RePat.lit (str "builder"), RePat.ws1, RePat.lit (str "bootcamp")],
   [RePat.lit (str "build"), RePat.ws1, RePat.lit (str "and"), RePat.ws1,
    RePat.lit (str "ship")],
   [RePat.lit (str "build"), RePat.ws0, RePat.lit (str "&"), RePat.ws0,
    RePat.lit (str "ship")]]

/-- Table `PRIMARY_TOPICS`. -/
def PRIMARY_TOPICS : List (List Char) := [str "Prototyping", str "Coding with AI"]

/-- Embedding of `count_vibe_tools`: how many of the course's tool-list entries are vibe
tools (list entries, so duplicates count). -/
def count_vibe_tools (m : Mapping) : Nat :=
  m.tools.countP (fun t => t ∈ VIBE_TOOLS)

/-- Embedding of `has_a5`: a skill with code `A5` (at any weight) is already present. -/
def has_a5 (m : Mapping) : Bool :=
  m.skills.any (fun s => s.code = str "A5")

/-- The primary condition of assign_a5.py: a primary topic, a name-pattern
match, or at least 3 vibe tools together with `tool_weight >= 0.8`.  (The
script computes this as three successive `if`s setting `is_primary`.) -/
def a5Primary (topicsStr : List Char) (m : Mapping) : Bool :=
  (getTopics topicsStr).any (fun t => t ∈ PRIMARY_TOPICS)
    || altsSearch NAME_PATTERNS (lowerStr m.course_name)
    || (decide (3 ≤ count_vibe_tools m) && decide (8 ≤ m.tool_weight))

/-- The per-course body of `assign_a5.main`: skip when `A5` is present,
otherwise append `(A5, 0.8)` when primary, else `(A5, 0.3)` when at least one
vibe tool is assigned, else leave the course unchanged. -/
def assignCourse (topicsStr : List Char) (m : Mapping) : Mapping :=
  if has_a5 m then m
  else if a5Primary topicsStr m then
    { m with skills := m.skills ++ [⟨str "A5", 8⟩] }
  else if 1 ≤ count_vibe_tools m then
    { m with skills := m.skills ++ [⟨str "A5", 3⟩] }
  else m

/-- Embedding of `assign_a5.main` over the whole store: every mapping is processed against
the profile joined on its course id. -/
def assignStore (profiles : List Profile) (ms : List Mapping) : List Mapping :=
  ms.map (fun m => assignCourse (topicsFor profiles m.course_id) m)

/-! ### cleanup_skills.py: the Weight Pruning Engine -/

/-- Table `PM_AI_TOPICS`. -/
def PM_AI_TOPICS : List (List Char) :=
  [str "AI", str "Agentic AI", str "Product Strategy",
   str "Product Management Certifications", str "Working with LLMs",
   str "Developing AI Models", str "Machine Learning", str "AI Evals",
   str "RAG", str "System Design", str "APIs", str "Prototyping",
   str "Coding with AI", str "A/B Testing", str "Experimentation",
   str "Security", str "Data Analysis", str "Optimization",
   str "Project Management", str "Growth", str "B2B", str "Productivity",
   str "Strategy", str "User Research"]

/-- Table `DESIGN_TOPICS`. -/
def DESIGN_TOPICS : List (List Char) :=
  [str "Design", str "Design Systems", str "Design Sprints", str "Figma",
   str "UX", str "Healthcare"]

/-- Table `TECHNICAL_AI_TOPICS`. -/
def TECHNICAL_AI_TOPICS : List (List Char) :=
  [str "AI", str "Agentic AI", str "Working with LLMs",
   str "Developing AI Models", str "Machine Learning", str "AI Evals",
   str "RAG", str "System Design", str "APIs", str "Coding with AI",
   str "Prototyping", str "Data Analysis", str "Programming", str "Security"]

/-- Table `EVAL_KEYWORDS`. -/
def EVAL_KEYWORDS : List (List Char) :=
  [str "eval", str "test", str "a/b", str "experiment", str "measure",
   str "metric", str "quality", str "forecast"]

/-- Embedding of `has_skill_at(skills, code, weight)`. -/
def has_skill_at (skills : List Skill) (code : List Char) (w : Nat) : Bool :=
  skills.any (fun s => s.code = code && s.weight = w)

/-- Embedding of `has_any_skill_starting_with_at(skills, prefix, weight)`
(`s["code"].startswith(prefix)`). -/
def has_any_skill_starting_with_at (skills : List Skill) (p : List Char)
    (w : Nat) : Bool :=
  skills.any (fun s => p.isPrefixOf s.code && s.weight = w)

/-- Embedding of `remove_skill(skills, code, weight)`: drop every entry with that code and
weight. -/
def remove_skill (skills : List Skill) (code : List Char) (w : Nat) :
    List Skill :=
  skills.filter (fun s => !(s.code = code && s.weight = w))

/-- Rule 1: remove `A1@0.8` from courses without a PM/AI topic, another
`A`-skill at 0.8, or a PM keyword in the name. -/
def rule1 (nameLower : List Char) (hasPmTopic : Bool) (skills : List Skill) :
    List Skill :=
  if has_skill_at skills (str "A1") 8 then
    let otherA08 := skills.any (fun s =>
      (str "A").isPrefixOf s.code && s.code ≠ str "A1" && s.weight = 8)
    let nameHasPm :=
      [str "product", str "pm ", str "ai ", str "artificial intelligence",
       str "agent", str "llm", str "prototype", str "eval",
       str "strategy"].any (fun kw => isSubstr kw nameLower)
    if !hasPmTopic && !otherA08 && !nameHasPm then
      remove_skill skills (str "A1") 8
    else skills
  else skills

/-- Rule 2: remove `A1@0.3` from courses without a PM/AI topic, any `A`-skill
at 0.8, or a PM keyword (including `pricing`) in the name. -/
def rule2 (nameLower : List Char) (hasPmTopic : Bool) (skills : List Skill) :
    List Skill :=
  if has_skill_at skills (str "A1") 3 then
    let hasA08 := has_any_skill_starting_with_at skills (str "A") 8
    if !hasPmTopic && !hasA08 then
      let nameHasPm :=
        [str "product", str "pm ", str "ai ", str "artificial intelligence",
         str "agent", str "llm", str "prototype", str "eval", str "strategy",
         str "pricing"].any (fun kw => isSubstr kw nameLower)
      if !nameHasPm then remove_skill skills (str "A1") 3 else skills
    else skills
  else skills

/-- Rule 3: remove `A3@0.3` from courses without `A3@0.8`, an eval keyword in
the name, an eval topic, or both a PM/AI topic and a technical topic. -/
def rule3 (nameLower : List Char) (hasPmTopic hasTechnicalTopic : Bool)
    (topics : List (List Char)) (skills : List Skill) : List Skill :=
  if has_skill_at skills (str "A3") 3 then
    let hasA3_08 := has_skill_at skills (str "A3") 8
    let nameHasEval := EVAL_KEYWORDS.any (fun kw => isSubstr kw nameLower)
    let hasEvalTopic := str "AI Evals" ∈ topics || str "A/B Testing" ∈ topics
      || str "Experimentation" ∈ topics
    if !hasA3_08 && !nameHasEval && !hasEvalTopic then
      let hasStrongAi := hasPmTopic && hasTechnicalTopic
      if !hasStrongAi then remove_skill skills (str "A3") 3 else skills
    else skills
  else skills

/-- Rule 4: remove `E1@0.3` from courses without `E1@0.8`, a design topic, a
design keyword in the name, or Figma among the tools. -/
def rule4 (nameLower : List Char) (hasDesignTopic : Bool)
    (tools : List (List Char)) (skills : List Skill) : List Skill :=
  if has_skill_at skills (str "E1") 3 then
    let hasE1_08 := has_skill_at skills (str "E1") 8
    let nameHasDesign :=
      [str "design", str "ux", str "figma", str "visual", str "ui"].any
        (fun kw => isSubstr kw nameLower)
    let toolsHaveFigma := str "Figma" ∈ tools
    if !hasE1_08 && !hasDesignTopic && !nameHasDesign && !toolsHaveFigma then
      remove_skill skills (str "E1") 3
    else skills
  else skills

/-- One step of Rule 5's `for s in list(skills)` loop: for a snapshot entry
`s` that is a `B`-skill at 0.3, remove it from the current list unless a
technical topic, a current `B`-skill at 0.8, or a technical name keyword
protects it. -/
def rule5Step (nameLower : List Char) (hasTechnicalTopic : Bool)
    (cur : List Skill) (s : Skill) : List Skill :=
  if (str "B").isPrefixOf s.code && s.weight = 3 then
    let hasB08 := has_any_skill_starting_with_at cur (str "B") 8
    if !hasTechnicalTopic && !hasB08 then
      let nameHasTech :=
        [str "engineer", str "technical", str "api", str "code", str "build",
         str "system", str "architect", str "rag", str "agent", str "llm",
         str "model", str "ml ", str "data"].any
          (fun kw => isSubstr kw nameLower)
      if !nameHasTech then remove_skill cur s.code 3 else cur
    else cur
  else cur

/-- Rule 5: iterate the snapshot of the skill list taken at the start of the
rule (`list(skills)`), mutating the current list — single-pass, not
fixed-point. -/
def rule5 (nameLower : List Char) (hasTechnicalTopic : Bool)
    (skills : List Skill) : List Skill :=
  skills.foldl (rule5Step nameLower hasTechnicalTopic) skills

/-- The per-course body of cleanup_skills.py: the five rules in order.  The
`topicsStr` argument is the course's profile `topics` string. -/
def cleanupCourse (topicsStr : List Char) (m : Mapping) : Mapping :=
  let nameLower := lowerStr m.course_name
  let topics := getTopics topicsStr
  let hasPmTopic := topics.any (fun t => t ∈ PM_AI_TOPICS)
  let hasDesignTopic := topics.any (fun t => t ∈ DESIGN_TOPICS)
  let hasTechnicalTopic := topics.any (fun t => t ∈ TECHNICAL_AI_TOPICS)
  let s1 := rule1 nameLower hasPmTopic m.skills
  let s2 := rule2 nameLower hasPmTopic s1
  let s3 := rule3 nameLower hasPmTopic hasTechnicalTopic topics s2
  let s4 := rule4 nameLower hasDesignTopic m.tools s3
  let s5 := rule5 nameLower hasTechnicalTopic s4
  { m with skills := s5 }

/-! ### validate_tools.py: main loop -/

/-- The per-course body of `validate_tools.main`: a course with an empty (or
absent) tool list is skipped; otherwise the tool list is filtered by
`tool_found_in` against the course's syllabus text, and `tool_weight` is
zeroed when nothing is kept. -/
def validateCourse (syllabus : List Char) (m : Mapping) : Mapping :=
  if m.tools = [] then m
  else
    let kept := m.tools.filter (fun t => tool_found_in t syllabus)
    { m with tools := kept,
             tool_weight := if kept = [] then 0 else m.tool_weight }

/-- Embedding of `validate_tools.main` over the whole store. -/
def validateStore (profiles : List Profile) (ms : List Mapping) :
    List Mapping :=
  ms.map (fun m => validateCourse (syllabusFor profiles m.course_id) m)

/-! ## Supporting lemmas -/

theorem isSubstr_nil_right (pat : List Char) (h : pat ≠ []) :
    isSubstr pat [] = false := by
  cases pat with
  | nil => exact absurd rfl h
  | cons c cs => rfl

theorem isSubstr_nil_left (t : List Char) : isSubstr [] t = true := by
  have h0 : (0 : Nat) ∈ List.range (t.length + 1) := by
    simp [List.mem_range]
  exact List.any_eq_true.mpr ⟨0, h0, List.isPrefixOf_nil_left⟩

theorem lowerStr_ne_nil (s : List Char) (h : s ≠ []) : lowerStr s ≠ [] := by
  cases s with
  | nil => exact absurd rfl h
  | cons c cs => simp [lowerStr]

/-- Branch-selection: `tool_found_in` on tool `v0` and nonempty text is the
`v0` branch. -/
theorem tool_found_in_v0 (text : List Char) (h : text ≠ []) :
    tool_found_in (str "v0") text = v0Branch text := by
  unfold tool_found_in
  rw [if_neg h, if_neg (by decide), if_neg (by decide), if_neg (by decide),
    if_neg (by decide), if_pos rfl]

/-- Branch-selection: `tool_found_in` on tool `Cursor` and nonempty text is
the `Cursor` branch. -/
theorem tool_found_in_cursor (text : List Char) (h : text ≠ []) :
    tool_found_in (str "Cursor") text = cursorBranch text := by
  unfold tool_found_in
  rw [if_neg h, if_neg (by decide), if_neg (by decide), if_pos rfl]

/-- Branch-selection: `tool_found_in` on tool `Relay` and nonempty text is
the `Relay` branch. -/
theorem tool_found_in_relay (text : List Char) (h : text ≠ []) :
    tool_found_in (str "Relay") text = relayBranch text := by
  unfold tool_found_in
  rw [if_neg h, if_neg (by decide), if_neg (by decide), if_neg (by decide),
    if_neg (by decide), if_neg (by decide), if_neg (by decide),
    if_neg (by decide), if_neg (by decide), if_neg (by decide),
    if_neg (by decide), if_neg (by decide), if_pos rfl]

/-! ## Claim C10 -/

/-- Claim C10: a course whose tool list is already empty (or absent) on input
is left entirely unchanged by the Evidence Validator; in particular a nonzero
`tool_weight` on such a course is not reset to zero. -/
theorem validator_frame_c10 (syllabus : List Char) (m : Mapping)
    (h : m.tools = []) : validateCourse syllabus m = m := by
  unfold validateCourse
  rw [if_pos h]

/-- Witness for C10 at a concrete course with a nonzero tool weight. -/
theorem validator_frame_c10_w :
    validateCourse (str "")
        (⟨str "c9", str "Intro", [⟨str "A1", 8⟩], [], 8⟩ : Mapping)
      = (⟨str "c9", str "Intro", [⟨str "A1", 8⟩], [], 8⟩ : Mapping) :=
  validator_frame_c10 (str "") _ rfl

/-! ## Claim C9 -/

/-- Claim C9: the Evidence Validator only removes tools (the kept list is a
subsequence of the input list), and a course that entered with a non-empty
tool list and keeps nothing has its `tool_weight` set to zero. -/
theorem validator_removal_c9 (syllabus : List Char) (m : Mapping) :
    ((validateCourse syllabus m).tools.Sublist m.tools) ∧
    (m.tools ≠ [] → (validateCourse syllabus m).tools = [] →
      (validateCourse syllabus m).tool_weight = 0) := by
  unfold validateCourse
  by_cases h : m.tools = []
  · rw [if_pos h]
    exact ⟨List.Sublist.refl _, fun hne _ => absurd h hne⟩
  · rw [if_neg h]
    refine ⟨List.filter_sublist _, fun _ hk => ?_⟩
    simp only at hk
    simp [hk]

/-- Witness for C9: a course whose sole tool fails validation against an
empty syllabus ends with no tools and zero tool weight. -/
theorem validator_removal_c9_w :
    (validateCourse (str "")
        (⟨str "c1", str "N", [], [str "Relay"], 8⟩ : Mapping)).tool_weight
      = 0 :=
  (validator_removal_c9 (str "") _).2 (by decide) (by decide)

/-! ## Claim C8 -/

/-- Claim C8: for tool `Relay`, any text containing the substring `Relay.app`
is accepted unconditionally (domain-suffix shortcut). -/
theorem relay_domain_suffix_c8 (text : List Char)
    (h : isSubstr (str "Relay.app") text = true) :
    tool_found_in (str "Relay") text = true := by
  have hne : text ≠ [] := by
    intro he
    rw [he, isSubstr_nil_right _ (by decide)] at h
    exact absurd h (by decide)
  rw [tool_found_in_relay text hne]
  unfold relayBranch
  rw [if_pos h]

/-- Witness for C8 at the spec's Scenario D text. -/
theorem relay_domain_suffix_c8_w :
    tool_found_in (str "Relay") (str "Relay.app lets you automate...") = true :=
  relay_domain_suffix_c8 _ (by decide)

/-! ## Claim C7 -/

/-- Claim C7: a (nonempty) tool name not handled by Tier 1 or Tier 2 is
resolved by the fallback rule — case-insensitive substring matching, which is
false on empty text.  (The embedding is a total function, so no input can
raise.) -/
theorem fallback_substring_c7 (tool text : List Char)
    (h1 : tool ∉ TIER1_TOOLS) (h2 : tool ∉ TIER2_TOOLS) (h3 : tool ≠ []) :
    tool_found_in tool text = isSubstr (lowerStr tool) (lowerStr text) := by
  simp only [TIER2_TOOLS, List.mem_cons, List.not_mem_nil, or_false,
    not_or] at h2
  obtain ⟨n1, n2, n3, n4, n5, n6, n7, n8, n9, n10, n11⟩ := h2
  by_cases ht : text = []
  · subst ht
    have hl : lowerStr ([] : List Char) = [] := rfl
    unfold tool_found_in
    rw [if_pos rfl, hl, isSubstr_nil_right _ (lowerStr_ne_nil tool h3)]
  · unfold tool_found_in
    rw [if_neg ht, if_neg h1, if_neg n1, if_neg n2, if_neg n3, if_neg n4,
      if_neg n5, if_neg n6, if_neg n7, if_neg n8, if_neg n9, if_neg n10,
      if_neg n11]

/-- Witness for C7 at an unrecognized tool name, both on a matching text and
on the empty text. -/
theorem fallback_substring_c7_w :
    tool_found_in (str "Canva") (str "We use CANVA daily") = true ∧
    tool_found_in (str "Canva") (str "") = false := by
  constructor
  · rw [fallback_substring_c7 (str "Canva") _ (by decide) (by decide)
      (by decide)]
    decide
  · rw [fallback_substring_c7 (str "Canva") _ (by decide) (by decide)
      (by decide)]
    decide

/-! ## Claim C4 -/

theorem has_a5_after_append (m : Mapping) (w : Nat) :
    has_a5 { m with skills := m.skills ++ [⟨str "A5", w⟩] } = true := by
  simp [has_a5]

theorem assignCourse_skip (t : List Char) (m : Mapping)
    (h : has_a5 m = true) : assignCourse t m = m := by
  unfold assignCourse
  rw [if_pos h]

theorem assignCourse_primary (t : List Char) (m : Mapping)
    (h : has_a5 m = false) (hp : a5Primary t m = true) :
    assignCourse t m = { m with skills := m.skills ++ [⟨str "A5", 8⟩] } := by
  unfold assignCourse
  rw [if_neg (by simp [h]), if_pos hp]

theorem assignCourse_secondary (t : List Char) (m : Mapping)
    (h : has_a5 m = false) (hp : a5Primary t m = false)
    (hv : 1 ≤ count_vibe_tools m) :
    assignCourse t m = { m with skills := m.skills ++ [⟨str "A5", 3⟩] } := by
  unfold assignCourse
  rw [if_neg (by simp [h]), if_neg (by simp [hp]), if_pos hv]

theorem assignCourse_none (t : List Char) (m : Mapping)
    (h : has_a5 m = false) (hp : a5Primary t m = false)
    (hv : count_vibe_tools m = 0) : assignCourse t m = m := by
  unfold assignCourse
  rw [if_neg (by simp [h]), if_neg (by simp [hp]), if_neg (by simp [hv])]

theorem assignCourse_course_id (t : List Char) (m : Mapping) :
    (assignCourse t m).course_id = m.course_id := by
  by_cases h : has_a5 m = true
  · rw [assignCourse_skip t m h]
  · have h' : has_a5 m = false := by simpa using h
    by_cases hp : a5Primary t m = true
    · rw [assignCourse_primary t m h' hp]
    · have hp' : a5Primary t m = false := by simpa using hp
      by_cases hv : 1 ≤ count_vibe_tools m
      · rw [assignCourse_secondary t m h' hp' hv]
      · rw [assignCourse_none t m h' hp' (by omega)]

theorem assignCourse_idem (t : List Char) (m : Mapping) :
    assignCourse t (assignCourse t m) = assignCourse t m := by
  by_cases h : has_a5 m = true
  · rw [assignCourse_skip t m h, assignCourse_skip t m h]
  · have h' : has_a5 m = false := by simpa using h
    by_cases hp : a5Primary t m = true
    · rw [assignCourse_primary t m h' hp]
      exact assignCourse_skip t _ (has_a5_after_append m 8)
    · have hp' : a5Primary t m = false := by simpa using hp
      by_cases hv : 1 ≤ count_vibe_tools m
      · rw [assignCourse_secondary t m h' hp' hv]
        exact assignCourse_skip t _ (has_a5_after_append m 3)
      · rw [assignCourse_none t m h' hp' (by omega),
          assignCourse_none t m h' hp' (by omega)]

/-- Claim C4: the Assignment Rule Engine is idempotent on the whole store
(a second run changes nothing), and a course that did not already hold `A5`
holds at most one `A5` tag afterwards. -/
theorem assign_idempotent_c4 (profiles : List Profile) (ms : List Mapping) :
    assignStore profiles (assignStore profiles ms) = assignStore profiles ms ∧
    (∀ (t : List Char) (m : Mapping), has_a5 m = false →
      ((assignCourse t m).skills.countP (fun s => s.code = str "A5")) ≤ 1) := by
  constructor
  · unfold assignStore
    rw [List.map_map]
    apply List.map_congr_left
    intro m _
    simp only [Function.comp]
    rw [assignCourse_course_id, assignCourse_idem]
  · intro t m h
    have hz : m.skills.countP (fun s => decide (s.code = str "A5")) = 0 := by
      rw [List.countP_eq_zero]
      intro a ha hcontra
      have htrue : has_a5 m = true := by
        unfold has_a5
        exact List.any_eq_true.mpr ⟨a, ha, hcontra⟩
      rw [h] at htrue
      exact Bool.false_ne_true htrue
    by_cases hp : a5Primary t m = true
    · rw [assignCourse_primary t m h hp]
      show List.countP _ (m.skills ++ [⟨str "A5", 8⟩]) ≤ 1
      rw [List.countP_append, hz]
      decide
    · have hp' : a5Primary t m = false := by simpa using hp
      by_cases hv : 1 ≤ count_vibe_tools m
      · rw [assignCourse_secondary t m h hp' hv]
        show List.countP _ (m.skills ++ [⟨str "A5", 3⟩]) ≤ 1
        rw [List.countP_append, hz]
        decide
      · rw [assignCourse_none t m h hp' (by omega)]
        rw [hz]
        decide

/-- Witness for C4's second conjunct at a concrete course. -/
theorem assign_idempotent_c4_w :
    ((assignCourse (str "Prototyping")
        (⟨str "c", str "n", [], [], 0⟩ : Mapping)).skills.countP
      (fun s => s.code = str "A5")) ≤ 1 :=
  (assign_idempotent_c4 [] []).2 (str "Prototyping") _ (by decide)

/-! ## Claim C3 -/

/-- Claim C3: per-course decision of the Assignment Rule Engine for a course
without `A5`: primary ⇒ append exactly `(A5, 0.8)`; not primary but at least
one vibe tool ⇒ append exactly `(A5, 0.3)`; otherwise unchanged.  The
original skill list is always a prefix of the result (nothing is overwritten
or removed). -/
theorem assign_trichotomy_c3 (t : List Char) (m : Mapping)
    (h : has_a5 m = false) :
    (a5Primary t m = true →
      assignCourse t m = { m with skills := m.skills ++ [⟨str "A5", 8⟩] }) ∧
    (a5Primary t m = false → 1 ≤ count_vibe_tools m →
      assignCourse t m = { m with skills := m.skills ++ [⟨str "A5", 3⟩] }) ∧
    (a5Primary t m = false → count_vibe_tools m = 0 →
      assignCourse t m = m) ∧
    m.skills <+: (assignCourse t m).skills := by
  refine ⟨?_, ?_, ?_, ?_⟩
  · exact fun hp => assignCourse_primary t m h hp
  · exact fun hp hv => assignCourse_secondary t m h hp hv
  · exact fun hp hv => assignCourse_none t m h hp hv
  · by_cases hp : a5Primary t m = true
    · rw [assignCourse_primary t m h hp]
      exact List.prefix_append _ _
    · have hp' : a5Primary t m = false := by simpa using hp
      by_cases hv : 1 ≤ count_vibe_tools m
      · rw [assignCourse_secondary t m h hp' hv]
        exact List.prefix_append _ _
      · rw [assignCourse_none t m h hp' (by omega)]

/-- Witness for C3: the spec's Scenario A (topics `{"Prototyping"}`, no prior
`A5`) receives exactly `(A5, 0.8)`. -/
theorem assign_trichotomy_c3_w :
    assignCourse (str "Prototyping") (⟨str "c", str "n", [], [], 0⟩ : Mapping)
      = (⟨str "c", str "n", [⟨str "A5", 8⟩], [], 0⟩ : Mapping) :=
  (assign_trichotomy_c3 (str "Prototyping") _ (by decide)).1 (by decide)

/-! ## Claim C6 -/

/-- Claim C6: for tool `Cursor` — (a) when a UI-cursor exclusion phrase is
present and no standalone capitalized `Cursor` survives the phrase removal,
the validator answers false; (b) when a standalone capitalized `Cursor` is
present and one still survives the phrase removal, it answers true; and (c)
on the spec's Scenario C text the validator answers true. -/
theorem cursor_exclusion_c6 :
    (∀ text, altsSearch cursorPhrases text = true →
      wbSearch (str "Cursor") (removeAlts cursorPhrases text) = false →
      tool_found_in (str "Cursor") text = false) ∧
    (∀ text, text ≠ [] → wbSearch (str "Cursor") text = true →
      altsSearch cursorPhrases text = true →
      wbSearch (str "Cursor") (removeAlts cursorPhrases text) = true →
      tool_found_in (str "Cursor") text = true) ∧
    tool_found_in (str "Cursor")
      (str "...use the Cursor app to edit your cursor position...") = true := by
  refine ⟨?_, ?_, by decide⟩
  · intro text hph hcl
    by_cases ht : text = []
    · subst ht; decide
    · rw [tool_found_in_cursor text ht]
      unfold cursorBranch
      by_cases hw : wbSearch (str "Cursor") text = true
      · rw [if_neg (by simp [hw]), if_pos hph, hcl]
      · have hw' : wbSearch (str "Cursor") text = false := by simpa using hw
        rw [if_pos (by simp [hw'])]
  · intro text ht hw hph hcl
    rw [tool_found_in_cursor text ht]
    unfold cursorBranch
    rw [if_neg (by simp [hw]), if_pos hph, hcl]

/-- Witness for C6's general parts: an excluded phrase plus a surviving
standalone capitalized occurrence elsewhere yields true. -/
theorem cursor_exclusion_c6_w :
    tool_found_in (str "Cursor") (str "the mouse cursor and the Cursor app")
      = true :=
  cursor_exclusion_c6.2.1 _ (by decide) (by decide) (by decide) (by decide)

/-! ## Claim C5 -/

/-- Every position recorded by the finditer scanner is a genuine occurrence
of the anchor (and lies at or after the scan start). -/
theorem findOccsGo_sound (anchor : List Char) :
    ∀ (t : List Char) (i skip p : Nat), p ∈ findOccsGo anchor t i skip →
      i ≤ p ∧ anchor.isPrefixOf (t.drop (p - i)) = true := by
  intro t
  induction t with
  | nil => intro i skip p hp; simp [findOccsGo] at hp
  | cons c rest ih =>
    intro i skip p hp
    unfold findOccsGo at hp
    by_cases hs : 0 < skip
    · rw [if_pos hs] at hp
      obtain ⟨h1, h2⟩ := ih (i + 1) (skip - 1) p hp
      refine ⟨by omega, ?_⟩
      have hd : p - i = (p - (i + 1)) + 1 := by omega
      rw [hd, List.drop_succ_cons]
      exact h2
    · rw [if_neg hs] at hp
      by_cases hm : anchor.isPrefixOf (c :: rest) = true
      · rw [if_pos hm] at hp
        rcases List.mem_cons.mp hp with rfl | hp'
        · exact ⟨Nat.le_refl _, by simpa using hm⟩
        · obtain ⟨h1, h2⟩ := ih (i + 1) (anchor.length - 1) p hp'
          refine ⟨by omega, ?_⟩
          have hd : p - i = (p - (i + 1)) + 1 := by omega
          rw [hd, List.drop_succ_cons]
          exact h2
      · rw [if_neg hm] at hp
        obtain ⟨h1, h2⟩ := ih (i + 1) 0 p hp
        refine ⟨by omega, ?_⟩
        have hd : p - i = (p - (i + 1)) + 1 := by omega
        rw [hd, List.drop_succ_cons]
        exact h2

/-- Occurrence positions delivered by `findOccs` are genuine matches. -/
theorem findOccs_sound (anchor text : List Char) (h : anchor ≠ []) (p : Nat)
    (hp : p ∈ findOccs anchor text) : listMatchAt anchor text p = true := by
  unfold listMatchAt
  cases anchor with
  | nil => exact absurd rfl h
  | cons a as =>
    have := (findOccsGo_sound (a :: as) text 0 0 p hp).2
    simpa using this

/-- Occurrence positions from `findOccs` fit inside the text. -/
theorem findOccs_le (anchor text : List Char) (p : Nat)
    (hp : p ∈ findOccs anchor text) : p ≤ text.length := by
  cases anchor with
  | nil =>
    simp only [findOccs, List.mem_range] at hp
    omega
  | cons a as =>
    have hm := findOccs_sound (a :: as) text (by simp) p hp
    unfold listMatchAt at hm
    have hpre := List.isPrefixOf_iff_prefix.mp hm
    have hlen := hpre.length_le
    rw [List.length_drop] at hlen
    by_contra hc
    have : text.length - p = 0 := by omega
    rw [this] at hlen
    simp at hlen

/-- The scanner for anchor `v0` misses no occurrence: occurrences of `v0`
can never overlap (their first characters differ), so non-overlapping
left-to-right scanning records every one. -/
theorem findOccsGo_v0_complete :
    ∀ (t : List Char) (i skip p : Nat), skip ≤ 1 → i ≤ p →
      (skip = 1 → p ≠ i) →
      (str "v0").isPrefixOf (t.drop (p - i)) = true →
      p ∈ findOccsGo (str "v0") t i skip := by
  intro t
  induction t with
  | nil =>
    intro i skip p _ _ _ hm
    rw [List.drop_nil] at hm
    exact absurd hm (by decide)
  | cons c rest ih =>
    intro i skip p hsk hip hne hm
    unfold findOccsGo
    by_cases hs : 0 < skip
    · rw [if_pos hs]
      have hsk1 : skip = 1 := by omega
      have hpi : p ≠ i := hne hsk1
      have hip1 : i + 1 ≤ p := by omega
      have hd : p - i = (p - (i + 1)) + 1 := by omega
      rw [hd, List.drop_succ_cons] at hm
      have hz : skip - 1 = 0 := by omega
      rw [hz]
      exact ih (i + 1) 0 p (by omega) hip1 (by omega) hm
    · rw [if_neg hs]
      by_cases hmm : (str "v0").isPrefixOf (c :: rest) = true
      · rw [if_pos hmm]
        by_cases hpi : p = i
        · subst hpi
          exact List.mem_cons_self _ _
        · apply List.mem_cons_of_mem
          have hip1 : i + 1 ≤ p := by omega
          have hd : p - i = (p - (i + 1)) + 1 := by omega
          rw [hd, List.drop_succ_cons] at hm
          have hne1 : p ≠ i + 1 := by
            intro hcon
            subst hcon
            have h0 : (i + 1) - (i + 1) = 0 := by omega
            rw [h0, List.drop_zero] at hm
            cases rest with
            | nil => exact absurd hm (by decide)
            | cons d rest2 =>
              obtain ⟨s1, hs1⟩ := List.isPrefixOf_iff_prefix.mp hm
              obtain ⟨s2, hs2⟩ := List.isPrefixOf_iff_prefix.mp hmm
              have hv0 : str "v0" = 'v' :: '0' :: [] := rfl
              rw [hv0] at hs1 hs2
              have h1 : d = 'v' ∧ rest2 = '0' :: s1 := by simpa using hs1.symm
              have h2 : c = 'v' ∧ d = '0' ∧ rest2 = s2 := by
                simpa using hs2.symm
              exact absurd (h1.1.symm.trans h2.2.1) (by decide)
          show p ∈ findOccsGo (str "v0") rest (i + 1) ((str "v0").length - 1)
          exact ih (i + 1) ((str "v0").length - 1) p (by decide) hip1
            (fun _ => hne1) hm
      · rw [if_neg hmm]
        have hpi : p ≠ i := by
          intro hcon
          subst hcon
          have h0 : p - p = 0 := by omega
          rw [h0, List.drop_zero] at hm
          exact hmm hm
        have hip1 : i + 1 ≤ p := by omega
        have hd : p - i = (p - (i + 1)) + 1 := by omega
        rw [hd, List.drop_succ_cons] at hm
        exact ih (i + 1) 0 p (by omega) hip1 (by omega) hm

/-- Every occurrence of `v0` in a text is recorded by the scanner. -/
theorem findOccs_v0_complete (text : List Char) (p : Nat)
    (hm : listMatchAt (str "v0") text p = true) :
    p ∈ findOccs (str "v0") text := by
  unfold listMatchAt at hm
  have : p - 0 = p := by omega
  exact findOccsGo_v0_complete text 0 0 p (by omega) (by omega) (by omega)
    (by rw [this]; exact hm)

/-- A `v0` match forces the text to have at least two more characters. -/
theorem v0_match_bound (text : List Char) (p : Nat)
    (hm : listMatchAt (str "v0") text p = true) : p + 2 ≤ text.length := by
  unfold listMatchAt at hm
  have hpre := List.isPrefixOf_iff_prefix.mp hm
  have hlen := hpre.length_le
  rw [List.length_drop] at hlen
  have : (str "v0").length = 2 := by decide
  omega

/-- Counterexample for claim C5: in the text `v0.3` the (only) occurrence of
`v0` is at the start of the text and is followed by `.`, a character of the
validator's sentence-punctuation class, yet the validator answers false —
so "followed by sentence punctuation" does not suffice for a match. -/
theorem v0_version_suffix_c5_cex :
    listMatchAt (str "v0") (str "v0.3") 0 = true ∧
    (str "v0.3").getD 2 ' ' = '.' ∧
    v0AfterOk (str "v0.3") 2 = true ∧
    tool_found_in (str "v0") (str "v0.3") = false := by decide

/-- Claim C5 (amended): for tool `v0` — (a) a text in which every occurrence
of `v0` is immediately followed by a dot-digit version suffix is rejected;
(b) a text with an occurrence of `v0` preceded by start-of-text or
whitespace and followed by whitespace, sentence punctuation, or end-of-text
is accepted, provided that occurrence is not immediately followed by a
dot-digit version suffix. -/
theorem v0_version_suffix_c5 (text : List Char) :
    ((∀ p, listMatchAt (str "v0") text p = true →
        dotDigitAt text (p + 2) = true) →
      tool_found_in (str "v0") text = false) ∧
    (∀ p, listMatchAt (str "v0") text p = true →
      (p = 0 ∨ isPyWhitespace (text.getD (p - 1) ' ') = true) →
      v0AfterOk text (p + 2) = true →
      dotDigitAt text (p + 2) = false →
      tool_found_in (str "v0") text = true) := by
  constructor
  · intro hall
    by_cases ht : text = []
    · subst ht; decide
    · rw [tool_found_in_v0 text ht]
      unfold v0Branch
      by_cases ho : v0Outer text = true
      · rw [if_pos ho]
        rw [List.any_eq_false]
        intro p hp
        have hm := findOccs_sound (str "v0") text (by decide) p hp
        rw [hall p hm]
        decide
      · have ho' : v0Outer text = false := by simpa using ho
        rw [if_neg (by simp [ho'])]
  · intro p hm hbefore hafter hnotdot
    have ht : text ≠ [] := by
      intro hcon
      subst hcon
      unfold listMatchAt at hm
      rw [List.drop_nil] at hm
      exact absurd hm (by decide)
    rw [tool_found_in_v0 text ht]
    unfold v0Branch
    have hbound := v0_match_bound text p hm
    have houter : v0Outer text = true := by
      unfold v0Outer
      apply List.any_eq_true.mpr
      refine ⟨p, by simp [List.mem_range]; omega, ?_⟩
      have hb : (if p = 0 then true
          else isPyWhitespace (text.getD (p - 1) ' ')) = true := by
        rcases hbefore with h0 | hws
        · rw [if_pos h0]
        · by_cases h0 : p = 0
          · rw [if_pos h0]
          · rw [if_neg h0]; exact hws
      rw [hb, hm, hafter]
      rfl
    rw [if_pos houter]
    apply List.any_eq_true.mpr
    refine ⟨p, findOccs_v0_complete text p hm, ?_⟩
    rw [hnotdot]
    rfl

/-- Witness for C5 (amended): `use v0 today` is accepted, `v0.3` rejected. -/
theorem v0_version_suffix_c5_w :
    tool_found_in (str "v0") (str "use v0 today") = true ∧
    tool_found_in (str "v0") (str "v0.3") = false := by
  constructor
  · exact (v0_version_suffix_c5 (str "use v0 today")).2 4 (by decide)
      (by decide) (by decide) (by decide)
  · apply (v0_version_suffix_c5 (str "v0.3")).1
    intro p hm
    have hb := v0_match_bound _ _ hm
    have hp2 : p ≤ 2 := by
      have hlen : (str "v0.3").length = 4 := by decide
      omega
    interval_cases p
    · decide
    · exact absurd hm (by decide)
    · exact absurd hm (by decide)

/-! ## Claim C1 -/

theorem mem_remove_skill (s : List Skill) (c : List Char) (w : Nat)
    (x : Skill) (hx : x ∈ remove_skill s c w) : x ∈ s :=
  (List.mem_filter.mp hx).1

theorem mem_remove_skill_of (s : List Skill) (c : List Char) (w : Nat)
    (x : Skill) (hx : x ∈ s) (h : ¬(x.code = c ∧ x.weight = w)) :
    x ∈ remove_skill s c w := by
  refine List.mem_filter.mpr ⟨hx, ?_⟩
  simpa using not_and_or.mp h

theorem rule1_subset (nl : List Char) (pm : Bool) (s : List Skill)
    (x : Skill) (hx : x ∈ rule1 nl pm s) : x ∈ s := by
  simp only [rule1] at hx
  split_ifs at hx
  · exact mem_remove_skill _ _ _ _ hx
  · exact hx
  · exact hx

theorem rule2_subset (nl : List Char) (pm : Bool) (s : List Skill)
    (x : Skill) (hx : x ∈ rule2 nl pm s) : x ∈ s := by
  simp only [rule2] at hx
  split_ifs at hx
  · exact mem_remove_skill _ _ _ _ hx
  · exact hx
  · exact hx
  · exact hx

theorem rule3_subset (nl : List Char) (pm tech : Bool)
    (topics : List (List Char)) (s : List Skill) (x : Skill)
    (hx : x ∈ rule3 nl pm tech topics s) : x ∈ s := by
  simp only [rule3] at hx
  split_ifs at hx
  · exact mem_remove_skill _ _ _ _ hx
  · exact hx
  · exact hx
  · exact hx

theorem rule4_subset (nl : List Char) (design : Bool)
    (tools : List (List Char)) (s : List Skill) (x : Skill)
    (hx : x ∈ rule4 nl design tools s) : x ∈ s := by
  simp only [rule4] at hx
  split_ifs at hx
  · exact mem_remove_skill _ _ _ _ hx
  · exact hx
  · exact hx

theorem rule5Step_subset (nl : List Char) (tech : Bool) (cur : List Skill)
    (s : Skill) (x : Skill) (hx : x ∈ rule5Step nl tech cur s) : x ∈ cur := by
  simp only [rule5Step] at hx
  split_ifs at hx
  · exact mem_remove_skill _ _ _ _ hx
  · exact hx
  · exact hx
  · exact hx

theorem rule5_foldl_subset (nl : List Char) (tech : Bool) :
    ∀ (l : List Skill) (cur : List Skill) (x : Skill),
      x ∈ l.foldl (rule5Step nl tech) cur → x ∈ cur := by
  intro l
  induction l with
  | nil => intro cur x hx; exact hx
  | cons s l ih =>
    intro cur x hx
    exact rule5Step_subset nl tech cur s x (ih _ x hx)

theorem rule5_subset (nl : List Char) (tech : Bool) (s : List Skill)
    (x : Skill) (hx : x ∈ rule5 nl tech s) : x ∈ s :=
  rule5_foldl_subset nl tech s s x hx

theorem rule1_keeps_w3 (nl : List Char) (pm : Bool) (s : List Skill)
    (x : Skill) (hx : x ∈ s) (hw : x.weight = 3) : x ∈ rule1 nl pm s := by
  simp only [rule1]
  split_ifs
  · exact mem_remove_skill_of _ _ _ _ hx
      (fun hc => absurd (hw.symm.trans hc.2) (by decide))
  · exact hx
  · exact hx

theorem rule2_keeps (nl : List Char) (pm : Bool) (s : List Skill)
    (c : List Char) (h3 : (⟨c, 3⟩ : Skill) ∈ s)
    (h8 : (⟨c, 8⟩ : Skill) ∈ s) : (⟨c, 3⟩ : Skill) ∈ rule2 nl pm s := by
  simp only [rule2]
  split_ifs with hA hcond hname
  · apply mem_remove_skill_of _ _ _ _ h3
    intro hc
    have hcA1 : c = str "A1" := hc.1
    have hA08 : has_any_skill_starting_with_at s (str "A") 8 = true := by
      unfold has_any_skill_starting_with_at
      apply List.any_eq_true.mpr
      exact ⟨⟨c, 8⟩, h8, by rw [hcA1]; decide⟩
    rw [hA08] at hcond
    simp at hcond
  · exact h3
  · exact h3
  · exact h3

theorem rule3_keeps (nl : List Char) (pm tech : Bool)
    (topics : List (List Char)) (s : List Skill) (c : List Char)
    (h3 : (⟨c, 3⟩ : Skill) ∈ s) (h8 : (⟨c, 8⟩ : Skill) ∈ s) :
    (⟨c, 3⟩ : Skill) ∈ rule3 nl pm tech topics s := by
  simp only [rule3]
  split_ifs with hA hcond hstrong
  · apply mem_remove_skill_of _ _ _ _ h3
    intro hc
    have hcA3 : c = str "A3" := hc.1
    have hA38 : has_skill_at s (str "A3") 8 = true := by
      unfold has_skill_at
      apply List.any_eq_true.mpr
      exact ⟨⟨c, 8⟩, h8, by rw [hcA3]; decide⟩
    rw [hA38] at hcond
    simp at hcond
  · exact h3
  · exact h3
  · exact h3

theorem rule4_keeps (nl : List Char) (design : Bool)
    (tools : List (List Char)) (s : List Skill) (c : List Char)
    (h3 : (⟨c, 3⟩ : Skill) ∈ s) (h8 : (⟨c, 8⟩ : Skill) ∈ s) :
    (⟨c, 3⟩ : Skill) ∈ rule4 nl design tools s := by
  simp only [rule4]
  split_ifs with hE hcond
  · apply mem_remove_skill_of _ _ _ _ h3
    intro hc
    have hcE1 : c = str "E1" := hc.1
    have hE18 : has_skill_at s (str "E1") 8 = true := by
      unfold has_skill_at
      apply List.any_eq_true.mpr
      exact ⟨⟨c, 8⟩, h8, by rw [hcE1]; decide⟩
    rw [hE18] at hcond
    simp at hcond
  · exact h3
  · exact h3

theorem rule5Step_keeps (nl : List Char) (tech : Bool) (cur : List Skill)
    (s : Skill) (c : List Char) (h3 : (⟨c, 3⟩ : Skill) ∈ cur)
    (h8 : (⟨c, 8⟩ : Skill) ∈ cur) :
    (⟨c, 3⟩ : Skill) ∈ rule5Step nl tech cur s ∧
    (⟨c, 8⟩ : Skill) ∈ rule5Step nl tech cur s := by
  simp only [rule5Step]
  split_ifs with hB hcond hname
  · constructor
    · apply mem_remove_skill_of _ _ _ _ h3
      intro hc
      have hceq : c = s.code := hc.1
      rw [Bool.and_eq_true] at hB
      have hBc : (str "B").isPrefixOf s.code = true := hB.1
      have hB08 : has_any_skill_starting_with_at cur (str "B") 8 = true := by
        unfold has_any_skill_starting_with_at
        apply List.any_eq_true.mpr
        refine ⟨⟨c, 8⟩, h8, ?_⟩
        show ((str "B").isPrefixOf c && decide ((8 : Nat) = 8)) = true
        rw [hceq]
        simp [hBc]
      rw [hB08] at hcond
      simp at hcond
    · exact mem_remove_skill_of _ _ _ _ h8 (fun hc => by simp at hc)
  · exact ⟨h3, h8⟩
  · exact ⟨h3, h8⟩
  · exact ⟨h3, h8⟩

theorem rule5_foldl_keeps (nl : List Char) (tech : Bool) (c : List Char) :
    ∀ (l : List Skill) (cur : List Skill),
      (⟨c, 3⟩ : Skill) ∈ cur → (⟨c, 8⟩ : Skill) ∈ cur →
      (⟨c, 3⟩ : Skill) ∈ l.foldl (rule5Step nl tech) cur := by
  intro l
  induction l with
  | nil => intro cur h3 _; exact h3
  | cons s l ih =>
    intro cur h3 h8
    obtain ⟨h3', h8'⟩ := rule5Step_keeps nl tech cur s c h3 h8
    exact ih _ h3' h8'

theorem rule5_keeps (nl : List Char) (tech : Bool) (s : List Skill)
    (c : List Char) (h3 : (⟨c, 3⟩ : Skill) ∈ s)
    (h8 : (⟨c, 8⟩ : Skill) ∈ s) : (⟨c, 3⟩ : Skill) ∈ rule5 nl tech s :=
  rule5_foldl_keeps nl tech c s s h3 h8

/-- Counterexample for claim C1: a course holding `A2@0.8` and `A3@0.3`
(empty topics, name without keep keywords).  `A2` and `A3` share the
category-prefix letter `A`, and `A2@0.8` survives the whole pruning run, yet
Rule 3 removes `A3@0.3` — the keep condition of Rule 3 tests only the exact
code `A3` at 0.8, not the shared prefix. -/
theorem pruning_same_code_c1_cex :
    (⟨str "A2", 8⟩ : Skill) ∈
      (⟨str "c1", str "x", [⟨str "A2", 8⟩, ⟨str "A3", 3⟩], [], 0⟩ :
        Mapping).skills ∧
    (⟨str "A3", 3⟩ : Skill) ∈
      (⟨str "c1", str "x", [⟨str "A2", 8⟩, ⟨str "A3", 3⟩], [], 0⟩ :
        Mapping).skills ∧
    (str "A").isPrefixOf (str "A2") = true ∧
    (str "A").isPrefixOf (str "A3") = true ∧
    (⟨str "A2", 8⟩ : Skill) ∈
      (cleanupCourse (str "")
        (⟨str "c1", str "x", [⟨str "A2", 8⟩, ⟨str "A3", 3⟩], [], 0⟩ :
          Mapping)).skills ∧
    (⟨str "A3", 3⟩ : Skill) ∉
      (cleanupCourse (str "")
        (⟨str "c1", str "x", [⟨str "A2", 8⟩, ⟨str "A3", 3⟩], [], 0⟩ :
          Mapping)).skills := by decide

/-- Claim C1 (amended): the pruning engine never removes a `(code, 0.3)`
entry while the `(same code, 0.8)` entry coexists on the course (survives the
run).  The same-prefix protection claimed by the spec holds only for Rules 2
and 5; Rules 3 and 4 protect only the exact code. -/
theorem pruning_same_code_c1 (topicsStr : List Char) (m : Mapping)
    (code : List Char)
    (h8 : (⟨code, 8⟩ : Skill) ∈ (cleanupCourse topicsStr m).skills)
    (h3 : (⟨code, 3⟩ : Skill) ∈ m.skills) :
    (⟨code, 3⟩ : Skill) ∈ (cleanupCourse topicsStr m).skills := by
  simp only [cleanupCourse] at h8 ⊢
  have h8_4 := rule5_subset _ _ _ _ h8
  have h8_3 := rule4_subset _ _ _ _ _ h8_4
  have h8_2 := rule3_subset _ _ _ _ _ _ h8_3
  have h8_1 := rule2_subset _ _ _ _ h8_2
  have h3_1 := rule1_keeps_w3 (lowerStr m.course_name)
    ((getTopics topicsStr).any (fun t => t ∈ PM_AI_TOPICS)) m.skills
    ⟨code, 3⟩ h3 rfl
  have h3_2 := rule2_keeps (lowerStr m.course_name)
    ((getTopics topicsStr).any (fun t => t ∈ PM_AI_TOPICS)) _ _ h3_1 h8_1
  have h3_3 := rule3_keeps (lowerStr m.course_name)
    ((getTopics topicsStr).any (fun t => t ∈ PM_AI_TOPICS))
    ((getTopics topicsStr).any (fun t => t ∈ TECHNICAL_AI_TOPICS))
    (getTopics topicsStr) _ _ h3_2 h8_2
  have h3_4 := rule4_keeps (lowerStr m.course_name)
    ((getTopics topicsStr).any (fun t => t ∈ DESIGN_TOPICS)) m.tools _ _
    h3_3 h8_3
  exact rule5_keeps (lowerStr m.course_name)
    ((getTopics topicsStr).any (fun t => t ∈ TECHNICAL_AI_TOPICS)) _ _
    h3_4 h8_4

/-- Witness for C1 (amended): a course holding both `A3@0.8` and `A3@0.3`
keeps the secondary tag. -/
theorem pruning_same_code_c1_w :
    (⟨str "A3", 3⟩ : Skill) ∈
      (cleanupCourse (str "")
        (⟨str "c2", str "x", [⟨str "A3", 8⟩, ⟨str "A3", 3⟩], [], 0⟩ :
          Mapping)).skills :=
  pruning_same_code_c1 (str "") _ (str "A3") (by decide) (by decide)

/-! ## Claim C2 -/

theorem isSubstr_iff (pat L : List Char) :
    isSubstr pat L = true ↔ ∃ q, pat <+: L.drop q := by
  unfold isSubstr
  rw [List.any_eq_true]
  constructor
  · rintro ⟨q, _, hq⟩
    exact ⟨q, List.isPrefixOf_iff_prefix.mp hq⟩
  · rintro ⟨q, hq⟩
    by_cases hqle : q ≤ L.length
    · exact ⟨q, by simp [List.mem_range]; omega,
        List.isPrefixOf_iff_prefix.mpr hq⟩
    · have hnil : L.drop q = [] := List.drop_eq_nil_of_le (by omega)
      rw [hnil] at hq
      have hpat : pat = [] := List.prefix_nil.mp hq
      subst hpat
      exact ⟨0, by simp [List.mem_range], List.isPrefixOf_nil_left⟩

theorem lowerStr_slice (t : List Char) (a b : Nat) :
    lowerStr (sliceList t a b) = ((lowerStr t).take b).drop a := by
  unfold sliceList lowerStr
  rw [List.map_drop, List.map_take]

/-- The snippet test of `_has_nearby` for one anchor occurrence `s`: a
context word is a substring of the window slice exactly when it occurs at a
position `p` with `s - window ≤ p` (its first character at most `window`
characters before the occurrence start) and `p + w.length ≤ s + alen +
window` (its last character at most `window` characters after the occurrence
end). -/
theorem nearby_snippet_iff (T w : List Char) (s alen window : Nat)
    (_hs : s ≤ T.length) :
    isSubstr w ((T.take (min T.length (s + alen + window))).drop (s - window))
        = true
      ↔ ∃ p, w <+: T.drop p ∧ s ≤ p + window ∧
          p + w.length ≤ s + alen + window := by
  constructor
  · intro h
    rw [isSubstr_iff] at h
    obtain ⟨q, hq⟩ := h
    rw [List.drop_drop, List.drop_take] at hq
    have hq' := List.prefix_take_iff.mp hq
    by_cases hw : w = []
    · subst hw
      exact ⟨s, List.nil_prefix, by omega, by simp only [List.length_nil]; omega⟩
    · have hw1 : 0 < w.length := List.length_pos.mpr hw
      refine ⟨s - window + q, hq'.1, by omega, ?_⟩
      have := hq'.2
      omega
  · rintro ⟨p, hpre, h1, h2⟩
    by_cases hw : w = []
    · subst hw
      exact isSubstr_nil_left _
    · have hw1 : 0 < w.length := List.length_pos.mpr hw
      have hplen : p + w.length ≤ T.length := by
        have hl := hpre.length_le
        rw [List.length_drop] at hl
        omega
      rw [isSubstr_iff]
      refine ⟨p - (s - window), ?_⟩
      rw [List.drop_drop, List.drop_take]
      have hpd : s - window + (p - (s - window)) = p := by omega
      rw [hpd]
      exact List.prefix_take_iff.mpr ⟨hpre, by omega⟩

/-- Lemma `nearby_snippet_iff` transported along the lowercasing of the text and of
the context word. -/
theorem nearby_snippet_lower_iff (text w : List Char) (s alen window : Nat)
    (hs : s ≤ text.length) :
    isSubstr (lowerStr w)
        (lowerStr (sliceList text (s - window)
          (min text.length (s + alen + window)))) = true
      ↔ ∃ p, (lowerStr w) <+: (lowerStr text).drop p ∧ s ≤ p + window ∧
          p + w.length ≤ s + alen + window := by
  rw [lowerStr_slice]
  have hlen : text.length = (lowerStr text).length := by
    unfold lowerStr
    rw [List.length_map]
  have hwlen : w.length = (lowerStr w).length := by
    unfold lowerStr
    rw [List.length_map]
  rw [hlen, hwlen]
  exact nearby_snippet_iff (lowerStr text) (lowerStr w) s alen window
    (hlen ▸ hs)

/-- Claim C2: the context-window co-occurrence check succeeds exactly when
some finditer occurrence `s` of the anchor and some context word `w` admit a
(case-insensitive) occurrence of `w` at a position `p` with `s ≤ p + window`
and `p + w.length ≤ s + anchor.length + window`.  Both boundaries are
inclusive: a word starting exactly `window` characters before the occurrence
start, or ending exactly `window` characters after the occurrence end, counts;
one character further does not. -/
theorem hasNearby_window_c2 (text anchor : List Char)
    (ws : List (List Char)) (window : Nat) :
    hasNearby text anchor ws window = true ↔
      ∃ s ∈ findOccs anchor text, ∃ w ∈ ws, ∃ p,
        (lowerStr w) <+: (lowerStr text).drop p ∧
        s ≤ p + window ∧ p + w.length ≤ s + anchor.length + window := by
  unfold hasNearby
  rw [List.any_eq_true]
  constructor
  · rintro ⟨s, hsmem, hinner⟩
    rw [List.any_eq_true] at hinner
    obtain ⟨w, hwmem, hsub⟩ := hinner
    have hsle := findOccs_le anchor text s hsmem
    obtain ⟨p, h1, h2, h3⟩ :=
      (nearby_snippet_lower_iff text w s anchor.length window hsle).mp hsub
    exact ⟨s, hsmem, w, hwmem, p, h1, h2, h3⟩
  · rintro ⟨s, hsmem, w, hwmem, p, h1, h2, h3⟩
    refine ⟨s, hsmem, ?_⟩
    rw [List.any_eq_true]
    refine ⟨w, hwmem, ?_⟩
    have hsle := findOccs_le anchor text s hsmem
    exact (nearby_snippet_lower_iff text w s anchor.length window hsle).mpr
      ⟨p, h1, h2, h3⟩

end SkillsMap
